import Mathlib

/-!
Verification development for the FlowFusion bridge orchestrator.

Shallow embedding of the TWAP engine, the order model, the scheduler
predicate, the orchestrator event handlers and the on-chain bridge
contract of the repository, together with theorems settling the frozen
claims about them.

Conventions of the embedding:
* Go `decimal.Decimal` values (amounts, prices) are rationals; the
  library's division at 16 fractional digits with half-away-from-zero
  rounding is embedded explicitly as `decDiv`.
* `time.Time` values are unix seconds as integers; Go durations that the
  code converts with `int64(d.Seconds())` are exact on whole seconds.
* Fallible Go functions returning `(T, error)` are embedded as `Option`
  or `Except String`.
-/

namespace FlowFusion

/-- Rounding half away from zero, as shopspring decimal `DivRound` does. -/
def roundHalfAway (x : ℚ) : ℤ :=
  if 0 ≤ x then ⌊x + 1/2⌋ else -⌊-x + 1/2⌋

/-- Embedding of shopspring `Decimal.Div`: division carried out at
`DivisionPrecision = 16` fractional digits, rounding half away from zero.
Division by zero (which panics in Go; all call sites in the source guard
against it) is mapped to 0. -/
def decDiv (a b : ℚ) : ℚ :=
  if b = 0 then 0 else (roundHalfAway (a / b * 10^16) : ℚ) / 10^16

/-- Embedding of `Engine.calculateSlippage` (types.go): slippage in basis
points, `diff.Div(expected).Mul(10000)` truncated to an integer; 0 when the
expected price is zero.  The truncation `int(float64)` of the non-negative
decimal value is the floor. -/
def calculateSlippage (expectedPrice actualPrice : ℚ) : ℤ :=
  if expectedPrice = 0 then 0
  else ⌊decDiv |expectedPrice - actualPrice| expectedPrice * 10000⌋

/-- Order status constants shared by the database model (part_003) and the
bridge contract; the database `partially_filled` constant is rendered
`partFilled`. -/
inductive OStatus where
  | pending
  | executing
  | partFilled
  | completed
  | cancelled
  | expired
  | refunded
  | claimed
  | failed
deriving DecidableEq, Repr

/-- Embedding of `database.Order` (part_003), restricted to the fields the
orchestration code reads or writes.  Amount and price fields are rationals,
time fields unix seconds. -/
structure Order where
  id : String
  sourceToken : String
  targetToken : String
  targetChain : String
  sourceAmount : ℚ
  windowMinutes : ℕ
  executionIntervals : ℕ
  maxSlippage : ℤ
  minFillSize : ℚ
  timeoutHeight : ℤ
  timeoutTimestamp : ℤ
  createdAt : ℤ
  updatedAt : ℤ
  executedAmount : ℚ
  lastExecution : Option ℤ
  status : OStatus
  averagePrice : ℚ
deriving DecidableEq, Repr

/-- Embedding of `database.ExecutionRecord` (part_003). -/
structure ExecutionRecord where
  orderID : String
  intervalNumber : ℕ
  timestamp : ℤ
  amount : ℚ
  price : ℚ
  slippage : ℤ
  chainID : String
deriving DecidableEq, Repr

/-- Embedding of `twap.PricePoint` (types.go): one cached price
observation. -/
structure PricePoint where
  timestamp : ℤ
  price : ℚ
deriving DecidableEq, Repr

/-- The in-memory price cache `twap.PriceCache.data`: token pair to the
sequence of points in insertion order. -/
def PriceCache := List (String × List PricePoint)

/-- Store state visible to the engine: the orders table and the
execution_history table. -/
structure DBState where
  orders : List Order
  records : List ExecutionRecord
deriving DecidableEq, Repr

/-- Embedding of `PostgreSQLDB.GetOrder`: row lookup by primary key. -/
def findOrder (orders : List Order) (id : String) : Option Order :=
  orders.find? (fun o => o.id = id)

/-- Embedding of `PostgreSQLDB.UpdateOrder`: update of the mutable tail of
the row with the given id. -/
def setOrder (orders : List Order) (upd : Order) : List Order :=
  orders.map (fun o => if o.id = upd.id then upd else o)

/-- Embedding of `Order.UpdateAveragePrice` (part_003 lines 337-353):
running weighted average over the receiver's current `ExecutedAmount`. -/
def Order.updateAveragePrice (o : Order) (executionAmount executionPrice : ℚ) : Order :=
  if o.executedAmount = 0 then { o with averagePrice := executionPrice }
  else
    let prevValue := o.averagePrice * o.executedAmount
    let newValue := executionPrice * executionAmount
    let totalValue := prevValue + newValue
    let newTotalAmount := o.executedAmount + executionAmount
    if newTotalAmount = 0 then o
    else { o with averagePrice := decDiv totalValue newTotalAmount }

/-- Embedding of `Order.GetNextExecutionTime` (part_003 lines 304-312):
with no previous execution the creation time, otherwise the last execution
plus `(WindowMinutes / ExecutionIntervals) * time.Minute` — Go integer
division of the minutes, then conversion to seconds. -/
def Order.getNextExecutionTime (o : Order) : ℤ :=
  match o.lastExecution with
  | none => o.createdAt
  | some t => t + (o.windowMinutes / o.executionIntervals : ℕ) * 60

/-- Embedding of `Order.CanExecuteInterval` (part_003): now is at or past
the next execution time. -/
def Order.canExecuteInterval (o : Order) (now : ℤ) : Bool :=
  o.getNextExecutionTime ≤ now

/-- Embedding of `Order.GetRemainingAmount` (part_003). -/
def Order.getRemainingAmount (o : Order) : ℚ :=
  o.sourceAmount - o.executedAmount

/-- Embedding of the `PostgreSQLDB.GetExecutableOrders` WHERE clause
(database.go lines 345-366): status pending or executing, timeout height
strictly above the supplied current height, and last_execution null or
`last_execution + INTERVAL '1 minute' * (window_minutes /
execution_intervals) <= NOW()` — Postgres integer division of the two
INTEGER columns. -/
def Order.isExecutable (o : Order) (currentHeight now : ℤ) : Bool :=
  decide (o.status = OStatus.pending ∨ o.status = OStatus.executing) &&
    decide (currentHeight < o.timeoutHeight) &&
    (match o.lastExecution with
     | none => true
     | some t => decide (t + (o.windowMinutes / o.executionIntervals : ℕ) * 60 ≤ now))

/-- Embedding of `PostgreSQLDB.GetExecutableOrders` as a filter over the
orders table. -/
def getExecutableOrders (orders : List Order) (currentHeight now : ℤ) : List Order :=
  orders.filter (fun o => o.isExecutable currentHeight now)

/-- Embedding of `Engine.getPricePoints` (types.go lines 1527-1545): the
cached points of the pair whose timestamp is strictly after
`now - window` (`point.Timestamp.After(cutoff)`), in cache order; an
unknown pair yields the empty list. -/
def getPricePoints (cache : PriceCache) (tokenPair : String) (windowSecs now : ℤ) :
    List PricePoint :=
  match cache.find? (fun e => e.1 = tokenPair) with
  | none => []
  | some entry => entry.2.filter (fun p => now - windowSecs < p.timestamp)

/-- The accumulation loop of `Engine.calculateTWAP` (types.go lines
1449-1462), carried out by structural recursion: `prevTs` is the timestamp
of the positionally previous point (used for the weight even when that
point was skipped, exactly as the Go loop indexes `pricePoints[i-1]`), and
points before the window start are skipped.  Returns the pair
(total value, total weight). -/
def twapLoop (windowStart : ℤ) : Option ℤ → List PricePoint → ℚ × ℚ
  | _, [] => (0, 0)
  | prevTs, p :: rest =>
    let tail := twapLoop windowStart (some p.timestamp) rest
    if p.timestamp < windowStart then tail
    else
      let weight : ℚ := match prevTs with
        | none => 1
        | some t0 => ((p.timestamp - t0 : ℤ) : ℚ)
      (tail.1 + p.price * weight, tail.2 + weight)

/-- Embedding of `Engine.calculateTWAP` (types.go lines 1432-1477): pull
the points of the window, error (`none`) when there are none, the single
point's price when there is one, and otherwise the weighted mean
`totalValue / totalWeight` with the first weight 1 and subsequent weights
the inter-point gaps in seconds; `none` again when the total weight is
zero. -/
def calculateTWAP (cache : PriceCache) (tokenPair : String) (windowMinutes : ℕ) (now : ℤ) :
    Option ℚ :=
  let pricePoints := getPricePoints cache tokenPair (windowMinutes * 60) now
  match pricePoints with
  | [] => none
  | [p] => some p.price
  | _ =>
    let windowStart := now - windowMinutes * 60
    let sums := twapLoop windowStart none pricePoints
    if sums.2 = 0 then none else some (decDiv sums.1 sums.2)

/-- The TWAP value as the engine consumes it (`processOrder` falls back to
`decimal.Zero` when `calculateTWAP` errors). -/
def twapOrZero (cache : PriceCache) (tokenPair : String) (windowMinutes : ℕ) (now : ℤ) : ℚ :=
  (calculateTWAP cache tokenPair windowMinutes now).getD 0

/-- Embedding of `Engine.getCurrentPrice` (types.go lines 1480-1489): the
last point of the one-hour window, error (`none`) when the window is
empty. -/
def getCurrentPrice (cache : PriceCache) (tokenPair : String) (now : ℤ) : Option ℚ :=
  match (getPricePoints cache tokenPair 3600 now).getLast? with
  | none => none
  | some p => some p.price

/-- The token pair string `fmt.Sprintf("%s_%s", order.SourceToken,
order.TargetToken)` used throughout the engine. -/
def Order.tokenPair (o : Order) : String :=
  o.sourceToken ++ "_" ++ o.targetToken

/-- Embedding of `twap.ExecutionRequest` (types.go). -/
structure ExecReq where
  orderID : String
  intervalNumber : ℕ
  targetAmount : ℚ
  maxSlippage : ℤ
  priceHint : ℚ
deriving DecidableEq, Repr

/-- Embedding of `Engine.executeSwap` (types.go lines 1397-1429), the mock
swap: the executed amount is the requested amount scaled by
`0.99 + 0.02*(unix%100)/100` and the execution price is the price hint
scaled by `0.995 + 0.01*(unix%100)/100`.  `time.Now().Unix()` is the
parameter `nowUnix` (non-negative in reality; `%` agrees with `emod`
there). -/
def executeSwap (amount priceHint : ℚ) (nowUnix : ℤ) : ℚ × ℚ :=
  let n : ℚ := ((nowUnix % 100 : ℤ) : ℚ)
  let variance : ℚ := 99/100 + 2/100 * n / 100
  let priceVariance : ℚ := 995/1000 + 1/100 * n / 100
  (amount * variance, priceHint * priceVariance)

/-- The order-state mutation of `Engine.executeInterval` (types.go lines
1362-1371), in source order: add the executed amount, set the last
execution time, update the average price (note: after the executed amount
was already increased), set status executing, then completed when the
executed amount reaches the source amount. -/
def applyExecution (o : Order) (executedAmount executionPrice : ℚ) (nowUnix : ℤ) : Order :=
  let o1 := { o with executedAmount := o.executedAmount + executedAmount,
                     lastExecution := some nowUnix }
  let o2 := o1.updateAveragePrice executedAmount executionPrice
  if o2.sourceAmount ≤ o2.executedAmount then { o2 with status := OStatus.completed }
  else { o2 with status := OStatus.executing }

/-- Failure cases of `Engine.executeInterval`. -/
inductive ExecError where
  | orderNotFound
  | adapterNotFound
  | slippageExceeded (slippage maxSlippage : ℤ)
deriving DecidableEq, Repr

/-- Result of `Engine.executeInterval` (`twap.ExecutionResponse`). -/
inductive ExecResult where
  | failure (e : ExecError)
  | success (executedAmount executionPrice : ℚ) (slippage : ℤ)
deriving DecidableEq, Repr

/-- Embedding of `Engine.executeInterval` (types.go lines 1276-1395).
Steps in source order: fetch the order (error → failure, nothing written);
fetch the target-chain adapter; take the current price, falling back to
the price hint on error; when the hint is non-zero, fail with
slippage-exceeded if the hint-vs-market slippage is above the maximum;
run the swap; build the execution record; `CreateExecutionRecord` and
`UpdateOrder` are two separate store calls whose errors are only logged —
`recordOk`/`orderOk` say whether each write landed, and a failed write
leaves the response untouched. -/
def executeInterval (db : DBState) (cache : PriceCache) (registeredChains : List String)
    (req : ExecReq) (nowUnix : ℤ) (recordOk orderOk : Bool) : DBState × ExecResult :=
  match findOrder db.orders req.orderID with
  | none => (db, ExecResult.failure ExecError.orderNotFound)
  | some order =>
    if ¬ registeredChains.contains order.targetChain then
      (db, ExecResult.failure ExecError.adapterNotFound)
    else
      let marketPrice := (getCurrentPrice cache order.tokenPair nowUnix).getD req.priceHint
      if req.priceHint ≠ 0 ∧ req.maxSlippage < calculateSlippage req.priceHint marketPrice then
        (db, ExecResult.failure
          (ExecError.slippageExceeded (calculateSlippage req.priceHint marketPrice) req.maxSlippage))
      else
        let swap := executeSwap req.targetAmount marketPrice nowUnix
        let executedAmount := swap.1
        let executionPrice := swap.2
        let actualSlippage :=
          if req.priceHint ≠ 0 then calculateSlippage req.priceHint executionPrice else 0
        let record : ExecutionRecord :=
          { orderID := req.orderID, intervalNumber := req.intervalNumber,
            timestamp := nowUnix, amount := executedAmount, price := executionPrice,
            slippage := actualSlippage, chainID := order.targetChain }
        let db1 := if recordOk then { db with records := db.records ++ [record] } else db
        let updated := applyExecution order executedAmount executionPrice nowUnix
        let db2 := if orderOk then { db1 with orders := setOrder db1.orders updated } else db1
        (db2, ExecResult.success executedAmount executionPrice actualSlippage)

/-- Action decided by `Engine.processOrder` for one order on a scheduler
tick. -/
inductive ProcessAction where
  | skip
  | markCompleted (updated : Order)
  | enqueue (req : ExecReq)
deriving DecidableEq, Repr

/-- Embedding of `Engine.processOrder` (types.go lines 1207-1273): skip
unless an interval is due; when the history already holds
`ExecutionIntervals` records, set the status to completed and store it;
otherwise size the interval as remaining/remaining-intervals, skip when the
target is below the minimum fill size with more than one interval left,
and else enqueue the request with the TWAP price hint (zero when the TWAP
calculation errors). -/
def processOrder (o : Order) (history : List ExecutionRecord) (cache : PriceCache)
    (now : ℤ) : ProcessAction :=
  if ¬ o.canExecuteInterval now then ProcessAction.skip
  else if o.executionIntervals ≤ history.length then
    ProcessAction.markCompleted { o with status := OStatus.completed }
  else
    let remainingAmount := o.getRemainingAmount
    let remainingIntervals : ℤ := (o.executionIntervals : ℤ) - history.length
    if remainingIntervals ≤ 0 then ProcessAction.skip
    else
      let targetAmount := decDiv remainingAmount remainingIntervals
      if targetAmount < o.minFillSize ∧ 1 < remainingIntervals then ProcessAction.skip
      else
        ProcessAction.enqueue
          { orderID := o.id, intervalNumber := history.length,
            targetAmount := targetAmount, maxSlippage := o.maxSlippage,
            priceHint := twapOrZero cache o.tokenPair o.windowMinutes now }

/-- Embedding of `orchestrator.Statistics` (types.go), restricted to the
counters the event handlers and the timeout monitor touch. -/
structure Statistics where
  totalOrders : ℤ
  activeOrders : ℤ
  completedOrders : ℤ
  failedOrders : ℤ
  successfulSwaps : ℤ
deriving DecidableEq, Repr

/-- Embedding of `Orchestrator.handleOrderCreated` (types.go lines
641-653): unconditionally increment the total and active order counters;
nothing else is read from the event. -/
def handleOrderCreated (stats : Statistics) : Statistics :=
  { stats with totalOrders := stats.totalOrders + 1,
               activeOrders := stats.activeOrders + 1 }

/-- Embedding of `Orchestrator.handleHTLCClaimed` (types.go lines
744-755): unconditionally increment the successful-swaps counter; no
order or HTLC state is read or written. -/
def handleHTLCClaimed (stats : Statistics) : Statistics :=
  { stats with successfulSwaps := stats.successfulSwaps + 1 }

/-- Embedding of `Orchestrator.handleOrderExecuted` (types.go lines
655-681): read the order id from the event data, fetch the order, set its
status to executing and its update time to now, and store it; no check of
the order's current status. -/
def handleOrderExecuted (db : DBState) (eventOrderID : Option String) (now : ℤ) :
    Except String DBState :=
  match eventOrderID with
  | none => Except.error "missing order id in event data"
  | some oid =>
    match findOrder db.orders oid with
    | none => Except.error "failed to get order"
    | some order =>
      let updated := { order with status := OStatus.executing, updatedAt := now }
      Except.ok { db with orders := setOrder db.orders updated }

/-- Embedding of `Orchestrator.checkOrderTimeouts` (types.go lines
766-800): over the executable orders, any whose timeout timestamp has
passed is stored as expired and counted as failed. -/
def checkOrderTimeouts (db : DBState) (stats : Statistics) (currentHeight now : ℤ) :
    DBState × Statistics :=
  (getExecutableOrders db.orders currentHeight now).foldl
    (fun acc o =>
      if o.timeoutTimestamp ≤ now then
        let upd := { o with status := OStatus.expired, updatedAt := now }
        ({ acc.1 with orders := setOrder acc.1.orders upd },
         { acc.2 with failedOrders := acc.2.failedOrders + 1,
                      activeOrders := acc.2.activeOrders - 1 })
      else acc)
    (db, stats)

/-- Embedding of the on-chain `TWAPOrder` of `FlowFusionBridge`
(part_000), restricted to the fields `claimHTLC` touches; addresses and
bytes32 words are naturals, with user 0 standing for the absent order
(`address(0)`). -/
structure ContractOrder where
  user : ℕ
  htlcHash : ℕ
  status : OStatus
deriving DecidableEq, Repr

/-- The hash commitment schemes under discussion for the HTLC secret. -/
inductive HashScheme where
  | keccak256Packed
  | sha256Double
deriving DecidableEq, Repr

/-- The hash scheme the reference contract applies to the claim secret:
part_000 line 399 checks `keccak256(abi.encodePacked(secret)) ==
order.htlcHash` — a single keccak256 over the packed 32-byte secret. -/
def claimHashScheme : HashScheme := HashScheme.keccak256Packed

/-- Modelled from the spec: the spec words say the hashing function over
the secret is SHA-256 double-hashed per the reference contract. -/
def specClaimHashScheme : HashScheme := HashScheme.sha256Double

/-- Embedding of `FlowFusionBridge.claimHTLC` (part_000 lines 392-407):
require the order to exist (`orderExists` modifier) and be completed,
require the hash of the secret to equal the order's commitment, then move
the order to claimed and decrement the user's order count; any failed
require reverts, changing nothing.  The keccak256 primitive is the
abstract parameter `keccak`. -/
def claimHTLC (keccak : ℕ → ℕ) (ord : ContractOrder) (userOrderCount : ℕ) (secret : ℕ) :
    Except String (ContractOrder × ℕ) :=
  if ord.user = 0 then Except.error "FlowFusion: Order does not exist"
  else if ord.status ≠ OStatus.completed then Except.error "FlowFusion: Order not completed"
  else if keccak secret ≠ ord.htlcHash then Except.error "FlowFusion: Invalid secret"
  else Except.ok ({ ord with status := OStatus.claimed }, userOrderCount - 1)

/-- Modelled from the spec: the running-weighted-average formula the spec
states for `average_price`, with `old_executed` the executed amount before
the fill. -/
def specRunningAverage (oldAvg oldExecuted price amount : ℚ) : ℚ :=
  (oldAvg * oldExecuted + price * amount) / (oldExecuted + amount)

/-- Modelled from the spec: the interval duration formula `(W·60)/K`
seconds. -/
def specIntervalDurationSecs (w k : ℕ) : ℕ := (w * 60) / k

/-- Modelled from the spec: the TWAP weights `w_0 = 1` and `w_i` the
seconds between point i and point i−1, with `prev` the timestamp of the
point before the list (none at the head). -/
def specWeightsFrom : Option ℤ → List PricePoint → List ℚ
  | _, [] => []
  | prev, p :: rest =>
    (match prev with
     | none => (1 : ℚ)
     | some t0 => ((p.timestamp - t0 : ℤ) : ℚ)) :: specWeightsFrom (some p.timestamp) rest

/-- Modelled from the spec: `Σ(p_i.price · w_i)` over the window points. -/
def specTotalValue (pts : List PricePoint) : ℚ :=
  (List.zipWith (fun (p : PricePoint) (w : ℚ) => p.price * w) pts
    (specWeightsFrom none pts)).sum

/-- Modelled from the spec: `Σ(w_i)` over the window points. -/
def specTotalWeight (pts : List PricePoint) : ℚ :=
  (specWeightsFrom none pts).sum

/-- Modelled from the spec: the spec words say the TWAP query considers
exactly the points with timestamp ≥ now − window (the code uses a strict
bound instead). -/
def specWindowPoints (cache : PriceCache) (tokenPair : String) (windowSecs now : ℤ) :
    List PricePoint :=
  match cache.find? (fun e => e.1 = tokenPair) with
  | none => []
  | some entry => entry.2.filter (fun p => now - windowSecs ≤ p.timestamp)

/-! ### Concrete sample data used by the evaluation theorems -/

/-- A fresh order: nothing executed yet, average price zero. -/
def ordC1 : Order :=
  { id := "o1", sourceToken := "ETH", targetToken := "USDC", targetChain := "ethereum",
    sourceAmount := 1000, windowMinutes := 20, executionIntervals := 4,
    maxSlippage := 100, minFillSize := 100, timeoutHeight := 1000000,
    timeoutTimestamp := 1000000, createdAt := 0, updatedAt := 0,
    executedAmount := 0, lastExecution := none, status := OStatus.pending,
    averagePrice := 0 }

def dbC1 : DBState := { orders := [ordC1], records := [] }

/-- Cache holding one recent point at price 2000, so the current price the
engine fetches equals the TWAP hint and the slippage gate passes. -/
def cacheC1 : PriceCache := [("ETH_USDC", [{ timestamp := 49, price := 2000 }])]

/-- First-interval request for `ordC1`: amount 100 at TWAP hint 2000.  At
unix time 50 the mock swap variance factors are exactly 1, so the adapter
reports amount 100 executed at price 2000. -/
def reqC1 : ExecReq :=
  { orderID := "o1", intervalNumber := 0, targetAmount := 100, maxSlippage := 100,
    priceHint := 2000 }

/-- An order near completion: 990 of 1000 executed, final interval of 10
remaining. -/
def ordC2 : Order :=
  { ordC1 with id := "o2", executedAmount := 990, status := OStatus.executing,
               lastExecution := some 0 }

def dbC2 : DBState := { orders := [ordC2], records := [] }

/-- Final-interval request for `ordC2`: the whole remaining 10, with a
zero price hint so the slippage gate is bypassed.  At unix time 99 the
mock swap variance is 1.0098, so the adapter reports 10.098 executed. -/
def reqC2 : ExecReq :=
  { orderID := "o2", intervalNumber := 3, targetAmount := 10, maxSlippage := 100,
    priceHint := 0 }

/-- An order with two intervals, nothing executed. -/
def ordC3 : Order :=
  { ordC1 with id := "o3", executionIntervals := 2, status := OStatus.executing }

/-- Two execution records for `ordC3` — the record count has reached the
order's interval count while `executed_amount` is still 0. -/
def histC3 : List ExecutionRecord :=
  [{ orderID := "o3", intervalNumber := 0, timestamp := 10, amount := 1, price := 2000,
     slippage := 0, chainID := "ethereum" },
   { orderID := "o3", intervalNumber := 1, timestamp := 20, amount := 1, price := 2000,
     slippage := 0, chainID := "ethereum" }]

/-- The smallest legal TWAP plan of the spec: window 5 minutes, 2
intervals, one execution recorded at unix time 0. -/
def ordC4 : Order :=
  { ordC1 with id := "o4", windowMinutes := 5, executionIntervals := 2,
               lastExecution := some 0 }

/-- A fully executed order in the terminal state completed. -/
def ordC5 : Order :=
  { ordC1 with id := "o5", executedAmount := 1000, status := OStatus.completed }

def dbC5 : DBState := { orders := [ordC5], records := [] }

/-- Cache whose current price 2030 diverges from the TWAP hint 2000 by
150 bps, violating the 100 bps maximum of `reqC1`. -/
def cacheC7 : PriceCache := [("ETH_USDC", [{ timestamp := 49, price := 2030 }])]

/-- Cache with a single point sitting exactly on the window boundary
`now − window` for now = 1000 and a one-minute window. -/
def cacheC8 : PriceCache := [("P", [{ timestamp := 940, price := 5 }])]

/-- Cache with two points inside a two-minute window ending at 1000. -/
def cacheC8b : PriceCache :=
  [("P2", [{ timestamp := 900, price := 4 }, { timestamp := 960, price := 6 }])]

/-! ### Helper lemmas for evaluating the embedded decimal arithmetic -/

theorem roundHalfAway_intCast (m : ℤ) : roundHalfAway (m : ℚ) = m := by
  unfold roundHalfAway
  rcases le_or_lt (0 : ℚ) (m : ℚ) with h | h
  · rw [if_pos h, Int.floor_eq_iff]
    constructor <;> linarith
  · rw [if_neg (not_le.mpr h), neg_eq_iff_eq_neg, Int.floor_eq_iff]
    refine ⟨?_, ?_⟩ <;> push_cast <;> linarith

theorem decDiv_exact (a b c : ℚ) (m : ℤ) (hb : b ≠ 0) (h : a = b * c)
    (hm : c * 10^16 = m) : decDiv a b = c := by
  unfold decDiv
  rw [if_neg hb]
  have hq : a / b = c := by
    rw [h, mul_comm, mul_div_assoc, div_self hb, mul_one]
  rw [hq, hm, roundHalfAway_intCast]
  have h16 : ((10:ℚ)^16) ≠ 0 := by norm_num
  rw [← hm, mul_div_assoc, div_self h16, mul_one]

theorem decDiv_zero_left (b : ℚ) : decDiv 0 b = 0 := by
  rcases eq_or_ne b 0 with h | h
  · simp [decDiv, h]
  · exact decDiv_exact 0 b 0 0 h (by ring) (by norm_num)

theorem updateAveragePrice_executedAmount (o : Order) (a p : ℚ) :
    (o.updateAveragePrice a p).executedAmount = o.executedAmount := by
  unfold Order.updateAveragePrice
  split
  · rfl
  · dsimp only
    split <;> rfl

theorem updateAveragePrice_sourceAmount (o : Order) (a p : ℚ) :
    (o.updateAveragePrice a p).sourceAmount = o.sourceAmount := by
  unfold Order.updateAveragePrice
  split
  · rfl
  · dsimp only
    split <;> rfl

theorem applyExecution_executedAmount (o : Order) (a p : ℚ) (t : ℤ) :
    (applyExecution o a p t).executedAmount = o.executedAmount + a := by
  unfold applyExecution
  dsimp only
  split <;> simp [updateAveragePrice_executedAmount]

theorem twapLoop_eq_spec (ws : ℤ) :
    ∀ (pts : List PricePoint) (prev : Option ℤ),
      (∀ p ∈ pts, ¬ p.timestamp < ws) →
      twapLoop ws prev pts =
        ((List.zipWith (fun (p : PricePoint) (w : ℚ) => p.price * w) pts
            (specWeightsFrom prev pts)).sum,
         (specWeightsFrom prev pts).sum) := by
  intro pts
  induction pts with
  | nil => intro prev h; simp [twapLoop, specWeightsFrom]
  | cons p rest ih =>
    intro prev h
    have hp : ¬ p.timestamp < ws := h p (by simp)
    have hrest : ∀ q ∈ rest, ¬ q.timestamp < ws := fun q hq => h q (by simp [hq])
    simp only [twapLoop, specWeightsFrom, if_neg hp, ih (some p.timestamp) hrest]
    cases prev <;> simp [List.sum_cons, add_comm]

theorem getPricePoints_timestamp (cache : PriceCache) (pair : String) (w now : ℤ) :
    ∀ p ∈ getPricePoints cache pair w now, now - w < p.timestamp := by
  intro p hp
  unfold getPricePoints at hp
  rcases hfind : cache.find? (fun e => e.1 = pair) with _ | entry <;> rw [hfind] at hp
  · simp at hp
  · simpa using (List.mem_filter.mp hp).2

/-! ### Claim theorems -/

/-- C1.  The claim states that after a fill the order's average price is
the running weighted average over the executed amount before the fill.
The code violates it: `Engine.executeInterval` adds the fill to
`ExecutedAmount` before calling `Order.UpdateAveragePrice`, which uses the
already-increased `ExecutedAmount` as the previous weight.  On a fresh
order (nothing executed, average 0) a 100-unit fill at price 2000 leaves
`average_price = 1000`, while the claimed running average — here the
amount-weighted mean of the single recorded price — is 2000. -/
theorem executeInterval_average_price_at_first_fill :
    (findOrder (executeInterval dbC1 cacheC1 ["ethereum"] reqC1 50 true true).1.orders
        "o1").map Order.averagePrice = some 1000 ∧
    specRunningAverage 0 0 2000 100 = 2000 := by
  have hslip : calculateSlippage 2000 2000 = 0 := by
    have h0 : decDiv 0 2000 = 0 :=
      decDiv_exact 0 2000 0 0 (by norm_num) (by norm_num) (by norm_num)
    simp [calculateSlippage, h0]
  have havg : decDiv 200000 200 = 1000 :=
    decDiv_exact _ _ 1000 (10^19) (by norm_num) (by norm_num) (by norm_num)
  refine ⟨?_, ?_⟩
  · simp [executeInterval, dbC1, cacheC1, reqC1, ordC1, findOrder, getCurrentPrice,
      getPricePoints, executeSwap, applyExecution, Order.updateAveragePrice,
      Order.tokenPair, setOrder, hslip, havg]
    norm_num [havg]
  · norm_num [specRunningAverage]

/-- C2 counterexample.  An interval execution can raise `executed_amount`
above `source_amount`: `Engine.executeInterval` adds the adapter-reported
amount without a cap, and the mock swap scales the requested amount by up
to 1.0098.  On `ordC2` (990 of 1000 executed) the final interval of 10 at
unix time 99 reports 10.098 executed, leaving `executed_amount` =
1000.098 > 1000. -/
theorem executeInterval_overshoots_source_amount :
    (findOrder (executeInterval dbC2 [] ["ethereum"] reqC2 99 true true).1.orders
        "o2").map Order.executedAmount = some (500049/500) ∧
    ordC2.sourceAmount = 1000 ∧ (1000 : ℚ) < 500049/500 := by
  refine ⟨?_, by norm_num [ordC2, ordC1], by norm_num⟩
  simp [executeInterval, dbC2, reqC2, ordC2, ordC1, findOrder, getCurrentPrice,
    getPricePoints, executeSwap, applyExecution, Order.updateAveragePrice,
    Order.tokenPair, setOrder, decDiv_zero_left]
  norm_num

/-- C2, amended.  `executed_amount` stays non-negative and never
decreases under an interval execution, and the bound `executed_amount ≤
source_amount` is preserved exactly when the adapter-reported amount does
not exceed the remaining notional — the code itself never enforces this,
so an adapter over-report breaks the upper bound (see the
counterexample). -/
theorem applyExecution_bounds (o : Order) (a p : ℚ) (t : ℤ)
    (h0 : 0 ≤ o.executedAmount) (ha : 0 ≤ a)
    (hr : a ≤ o.sourceAmount - o.executedAmount) :
    o.executedAmount ≤ (applyExecution o a p t).executedAmount ∧
    0 ≤ (applyExecution o a p t).executedAmount ∧
    (applyExecution o a p t).executedAmount ≤ o.sourceAmount := by
  rw [applyExecution_executedAmount]
  exact ⟨by linarith, by linarith, by linarith⟩

/-- Witness for `applyExecution_bounds` at the fresh order `ordC1` with a
100-unit fill. -/
theorem applyExecution_bounds_witness :
    ordC1.executedAmount ≤ (applyExecution ordC1 100 2000 50).executedAmount ∧
    0 ≤ (applyExecution ordC1 100 2000 50).executedAmount ∧
    (applyExecution ordC1 100 2000 50).executedAmount ≤ ordC1.sourceAmount :=
  applyExecution_bounds ordC1 100 2000 50 (by norm_num [ordC1]) (by norm_num)
    (by norm_num [ordC1])

/-- C3 counterexample.  `Engine.processOrder` sets the status to completed
as soon as the execution-record count reaches the order's interval count,
with no look at the executed amount: on `ordC3` (0 of 1000 executed, 2 of
2 records) it stores status completed although `executed_amount <
source_amount`, refuting the claimed biconditional. -/
theorem processOrder_completes_with_partial_amount :
    processOrder ordC3 histC3 [] 100 =
      ProcessAction.markCompleted { ordC3 with status := OStatus.completed } ∧
    ordC3.executedAmount < ordC3.sourceAmount := by
  constructor
  · simp [processOrder, Order.canExecuteInterval, Order.getNextExecutionTime,
      ordC3, ordC1, histC3]
  · norm_num [ordC3, ordC1]

/-- C3, amended.  Completed is not equivalent to `executed_amount =
source_amount`: (a) after an interval execution the status is completed
exactly when the post-fill executed amount is at least (so possibly above)
the source amount; (b) the scheduler marks an order completed once the
record count reaches the interval count, regardless of the executed
amount. -/
theorem completed_status_characterization :
    (∀ (o : Order) (a p : ℚ) (t : ℤ),
        ((applyExecution o a p t).status = OStatus.completed ↔
          o.sourceAmount ≤ o.executedAmount + a)) ∧
    (∀ (o : Order) (h : List ExecutionRecord) (c : PriceCache) (now : ℤ),
        o.canExecuteInterval now = true → o.executionIntervals ≤ h.length →
        processOrder o h c now =
          ProcessAction.markCompleted { o with status := OStatus.completed }) := by
  constructor
  · intro o a p t
    have hs : (applyExecution o a p t).status =
        (if o.sourceAmount ≤ o.executedAmount + a then OStatus.completed
         else OStatus.executing) := by
      unfold applyExecution
      dsimp only
      rw [updateAveragePrice_sourceAmount, updateAveragePrice_executedAmount]
      dsimp only
      split_ifs <;> rfl
    rw [hs]
    split_ifs with hc
    · simp [hc]
    · simp [hc]
  · intro o h c now hdue hlen
    simp [processOrder, hdue, hlen]

/-- Witness for `completed_status_characterization`: part (a) at the fresh
order `ordC1` (100 of 1000 filled, status not completed) and part (b) at
`ordC3` with its two records. -/
theorem completed_status_characterization_witness :
    ((applyExecution ordC1 100 2000 50).status = OStatus.completed ↔
      ordC1.sourceAmount ≤ ordC1.executedAmount + 100) ∧
    processOrder ordC3 histC3 [] 100 =
      ProcessAction.markCompleted { ordC3 with status := OStatus.completed } :=
  ⟨completed_status_characterization.1 ordC1 100 2000 50,
   completed_status_characterization.2 ordC3 histC3 [] 100
     (by simp [Order.canExecuteInterval, Order.getNextExecutionTime, ordC3, ordC1])
     (by norm_num [histC3, ordC3, ordC1])⟩

/-- C4 counterexample.  For the W = 5, K = 2 plan the scheduler spaces
intervals by `(5 / 2) * 60 = 120` seconds — Go and SQL both divide the
minutes first with integer division — not by the claimed `(5·60)/2 = 150`
seconds: an order whose last execution was at time 0 is already deemed
executable at time 120, although per the claim the 150-second interval
has not elapsed. -/
theorem isExecutable_after_120s_on_smallest_plan :
    ordC4.isExecutable 0 120 = true ∧
    specIntervalDurationSecs 5 2 = 150 ∧ ¬((0 : ℤ) + 150 ≤ 120) := by
  refine ⟨?_, by norm_num [specIntervalDurationSecs], by norm_num⟩
  simp [Order.isExecutable, ordC4, ordC1]

/-- C4, amended.  An order is returned by the executable-orders query iff
its status is pending or executing, the current height is below its
timeout height, and its last execution is null or at least
`(W / K) * 60` seconds old, where `W / K` is integer division of the
window minutes by the interval count (so 120 seconds for W = 5, K = 2,
not 150); the engine's own due-check uses the same duration. -/
theorem scheduler_due_characterization :
    (∀ (orders : List Order) (h now : ℤ) (o : Order),
        o ∈ getExecutableOrders orders h now ↔
          o ∈ orders ∧ (o.status = OStatus.pending ∨ o.status = OStatus.executing) ∧
            h < o.timeoutHeight ∧
            (o.lastExecution = none ∨
              ∃ t, o.lastExecution = some t ∧
                t + ((o.windowMinutes / o.executionIntervals : ℕ) : ℤ) * 60 ≤ now)) ∧
    (∀ (o : Order) (t now : ℤ), o.lastExecution = some t →
        (o.canExecuteInterval now = true ↔
          t + ((o.windowMinutes / o.executionIntervals : ℕ) : ℤ) * 60 ≤ now)) := by
  constructor
  · intro orders h now o
    rcases holast : o.lastExecution with _ | t <;>
      simp [getExecutableOrders, List.mem_filter, Order.isExecutable, holast, and_assoc]
  · intro o t now h
    simp [Order.canExecuteInterval, Order.getNextExecutionTime, h]

/-- Witness for `scheduler_due_characterization` at `ordC4`. -/
theorem scheduler_due_characterization_witness :
    (ordC4 ∈ getExecutableOrders [ordC4] 0 120 ↔
      ordC4 ∈ [ordC4] ∧
        (ordC4.status = OStatus.pending ∨ ordC4.status = OStatus.executing) ∧
        (0 : ℤ) < ordC4.timeoutHeight ∧
        (ordC4.lastExecution = none ∨
          ∃ t, ordC4.lastExecution = some t ∧
            t + ((ordC4.windowMinutes / ordC4.executionIntervals : ℕ) : ℤ) * 60 ≤ 120)) ∧
    (ordC4.canExecuteInterval 120 = true ↔
      (0 : ℤ) + ((ordC4.windowMinutes / ordC4.executionIntervals : ℕ) : ℤ) * 60 ≤ 120) :=
  ⟨scheduler_due_characterization.1 [ordC4] 0 120 ordC4,
   scheduler_due_characterization.2 ordC4 0 120 rfl⟩

/-- C5.  Terminal orders are not immutable:
`Orchestrator.handleOrderExecuted` stores status executing on whatever
order the event names, with no check of the current status, so an
order_executed event (for instance a replay) moves the terminal order
`ordC5` from completed back to executing — a forbidden exit from a
terminal state that is not the completed-to-claimed transition. -/
theorem handleOrderExecuted_mutates_completed_order :
    ordC5.status = OStatus.completed ∧
    (handleOrderExecuted dbC5 (some "o5") 77).toOption.map
        (fun d => (findOrder d.orders "o5").map Order.status) =
      some (some OStatus.executing) := by
  constructor
  · rfl
  · simp [handleOrderExecuted, dbC5, ordC5, ordC1, findOrder, setOrder,
      Except.toOption, List.find?]

/-- C6 counterexample.  The record append and the order update are not
one transaction and a store error does not abort the operation: when the
record write fails (`recordOk = false`) on the `ordC1` execution, the
execution-history table is left without the record while the order is
still updated (executed amount 100) and the response still reports
success — partial state, against the claim that any store error aborts
with no partial state written. -/
theorem executeInterval_partial_write_on_record_error :
    (executeInterval dbC1 cacheC1 ["ethereum"] reqC1 50 false true).1.records = [] ∧
    (findOrder (executeInterval dbC1 cacheC1 ["ethereum"] reqC1 50 false true).1.orders
        "o1").map Order.executedAmount = some 100 ∧
    (executeInterval dbC1 cacheC1 ["ethereum"] reqC1 50 false true).2 =
      ExecResult.success 100 2000 0 := by
  have hslip : calculateSlippage 2000 2000 = 0 := by
    simp [calculateSlippage, decDiv_zero_left]
  have havg : decDiv 200000 200 = 1000 :=
    decDiv_exact _ _ 1000 (10^19) (by norm_num) (by norm_num) (by norm_num)
  refine ⟨?_, ?_, ?_⟩
  · simp [executeInterval, dbC1, cacheC1, reqC1, ordC1, findOrder, getCurrentPrice,
      getPricePoints, executeSwap, applyExecution, Order.updateAveragePrice,
      Order.tokenPair, setOrder, hslip, havg]
  · simp [executeInterval, dbC1, cacheC1, reqC1, ordC1, findOrder, getCurrentPrice,
      getPricePoints, executeSwap, applyExecution, Order.updateAveragePrice,
      Order.tokenPair, setOrder, hslip, havg]
    norm_num
  · simp [executeInterval, dbC1, cacheC1, reqC1, ordC1, findOrder, getCurrentPrice,
      getPricePoints, executeSwap, Order.tokenPair, hslip]
    norm_num [hslip]

/-- C6, amended.  On a successful interval the engine issues two separate
store writes — append the execution record, then update the order — and an
error in either write is only logged: the other write still lands and the
response still reports success.  So a failed record write leaves the order
updated with no matching record, and a failed order update leaves the
record with an unchanged order. -/
theorem executeInterval_store_errors_ignored
    (db : DBState) (cache : PriceCache) (chains : List String) (req : ExecReq)
    (now : ℤ) (o : Order)
    (hfind : findOrder db.orders req.orderID = some o)
    (hchain : chains.contains o.targetChain = true)
    (hgate : ¬(req.priceHint ≠ 0 ∧ req.maxSlippage <
        calculateSlippage req.priceHint
          ((getCurrentPrice cache o.tokenPair now).getD req.priceHint))) :
    ((executeInterval db cache chains req now false true).1.records = db.records ∧
      ∃ a p, (executeInterval db cache chains req now false true).1.orders =
          setOrder db.orders (applyExecution o a p now) ∧
        ∃ s, (executeInterval db cache chains req now false true).2 =
          ExecResult.success a p s) ∧
    ((executeInterval db cache chains req now true false).1.orders = db.orders ∧
      ∃ a p s, (executeInterval db cache chains req now true false).2 =
        ExecResult.success a p s) := by
  simp only [executeInterval, hfind, hchain, not_true, if_false, if_neg hgate]
  simp

/-- Witness for `executeInterval_store_errors_ignored` at the `ordC1`
execution. -/
theorem executeInterval_store_errors_ignored_witness :
    ((executeInterval dbC1 cacheC1 ["ethereum"] reqC1 50 false true).1.records =
        dbC1.records ∧
      ∃ a p, (executeInterval dbC1 cacheC1 ["ethereum"] reqC1 50 false true).1.orders =
          setOrder dbC1.orders (applyExecution ordC1 a p 50) ∧
        ∃ s, (executeInterval dbC1 cacheC1 ["ethereum"] reqC1 50 false true).2 =
          ExecResult.success a p s) ∧
    ((executeInterval dbC1 cacheC1 ["ethereum"] reqC1 50 true false).1.orders =
        dbC1.orders ∧
      ∃ a p s, (executeInterval dbC1 cacheC1 ["ethereum"] reqC1 50 true false).2 =
        ExecResult.success a p s) := by
  have hm : (getCurrentPrice cacheC1 (Order.tokenPair ordC1) 50).getD reqC1.priceHint
      = 2000 := by
    simp [getCurrentPrice, getPricePoints, cacheC1, ordC1, Order.tokenPair, reqC1]
  refine executeInterval_store_errors_ignored dbC1 cacheC1 ["ethereum"] reqC1 50 ordC1
    (by simp [dbC1, findOrder, ordC1, reqC1, List.find?]) (by simp [ordC1]) ?_
  rw [hm]
  rintro ⟨-, hlt⟩
  have hs : calculateSlippage reqC1.priceHint 2000 = 0 := by
    simp [calculateSlippage, reqC1, decDiv_zero_left]
  rw [hs] at hlt
  exact absurd hlt (by norm_num [reqC1])

/-- C7.  The pre-trade slippage gate of `Engine.executeInterval` behaves
as claimed: with a zero TWAP hint the execution proceeds with the price
unchecked; with a non-zero hint, hint-vs-current slippage strictly above
the order's maximum fails the interval with slippage-exceeded and leaves
the store untouched, while slippage at or below the maximum — equality
included — is accepted. -/
theorem executeInterval_slippage_gate
    (db : DBState) (cache : PriceCache) (chains : List String) (req : ExecReq)
    (now : ℤ) (rOk oOk : Bool) (o : Order)
    (hfind : findOrder db.orders req.orderID = some o)
    (hchain : chains.contains o.targetChain = true) :
    (req.priceHint = 0 →
      ∃ a p s, (executeInterval db cache chains req now rOk oOk).2 =
        ExecResult.success a p s) ∧
    (req.priceHint ≠ 0 →
      req.maxSlippage < calculateSlippage req.priceHint
          ((getCurrentPrice cache o.tokenPair now).getD req.priceHint) →
      executeInterval db cache chains req now rOk oOk =
        (db, ExecResult.failure (ExecError.slippageExceeded
          (calculateSlippage req.priceHint
            ((getCurrentPrice cache o.tokenPair now).getD req.priceHint))
          req.maxSlippage))) ∧
    (req.priceHint ≠ 0 →
      calculateSlippage req.priceHint
          ((getCurrentPrice cache o.tokenPair now).getD req.priceHint) ≤ req.maxSlippage →
      ∃ a p s, (executeInterval db cache chains req now rOk oOk).2 =
        ExecResult.success a p s) := by
  refine ⟨?_, ?_, ?_⟩
  · intro h0
    simp only [executeInterval, hfind, hchain, not_true, if_false]
    rw [if_neg (by simp [h0])]
    simp
  · intro hne hlt
    simp only [executeInterval, hfind, hchain, not_true, if_false]
    rw [if_pos ⟨hne, hlt⟩]
  · intro hne hle
    simp only [executeInterval, hfind, hchain, not_true, if_false]
    rw [if_neg (by rintro ⟨-, hlt⟩; exact absurd hle (not_le.mpr hlt))]
    simp

/-- Witness for `executeInterval_slippage_gate`: on `cacheC7` (current
price 2030 vs hint 2000, 150 bps > 100) the interval fails with
slippage-exceeded and the store is unchanged; on `cacheC1` (slippage 0)
it succeeds. -/
theorem executeInterval_slippage_gate_witness :
    executeInterval dbC1 cacheC7 ["ethereum"] reqC1 50 true true =
      (dbC1, ExecResult.failure (ExecError.slippageExceeded 150 100)) ∧
    (∃ a p s, (executeInterval dbC1 cacheC1 ["ethereum"] reqC1 50 true true).2 =
      ExecResult.success a p s) := by
  have hfind : findOrder dbC1.orders reqC1.orderID = some ordC1 := by
    simp [dbC1, findOrder, ordC1, reqC1, List.find?]
  have hchain : (["ethereum"] : List String).contains ordC1.targetChain = true := by
    simp [ordC1]
  have hm7 : (getCurrentPrice cacheC7 (Order.tokenPair ordC1) 50).getD reqC1.priceHint
      = 2030 := by
    simp [getCurrentPrice, getPricePoints, cacheC7, ordC1, Order.tokenPair, reqC1]
  have hm1 : (getCurrentPrice cacheC1 (Order.tokenPair ordC1) 50).getD reqC1.priceHint
      = 2000 := by
    simp [getCurrentPrice, getPricePoints, cacheC1, ordC1, Order.tokenPair, reqC1]
  have hdd : decDiv 30 2000 = 3/200 :=
    decDiv_exact _ _ (3/200) (15 * 10^13) (by norm_num) (by norm_num) (by norm_num)
  have hs7 : calculateSlippage reqC1.priceHint 2030 = 150 := by
    have habs : |(2000 : ℚ) - 2030| = 30 := by norm_num
    have h150 : (3 : ℚ)/200 * 10000 = 150 := by norm_num
    simp only [calculateSlippage, reqC1, habs, hdd, h150]
    norm_num
  have hs1 : calculateSlippage reqC1.priceHint 2000 = 0 := by
    simp [calculateSlippage, reqC1, decDiv_zero_left]
  constructor
  · have hb := (executeInterval_slippage_gate dbC1 cacheC7 ["ethereum"] reqC1 50 true true
      ordC1 hfind hchain).2.1 (by norm_num [reqC1])
    rw [hm7, hs7] at hb
    exact hb (by norm_num [reqC1])
  · exact (executeInterval_slippage_gate dbC1 cacheC1 ["ethereum"] reqC1 50 true true
      ordC1 hfind hchain).2.2 (by norm_num [reqC1])
      (by rw [hm1, hs1]; norm_num [reqC1])

/-- C8 counterexample.  The cache query keeps only points with timestamp
strictly greater than `now − window` (`point.Timestamp.After(cutoff)`),
not ≥ as claimed: a single point sitting exactly on the boundary (time
940, window one minute ending at 1000) is excluded, so `calculateTWAP`
errors out (`none`, consumed as 0) where the claim — which considers the
point and then takes the single point's price — expects 5. -/
theorem calculateTWAP_excludes_boundary_point :
    calculateTWAP cacheC8 "P" 1 1000 = none ∧
    specWindowPoints cacheC8 "P" 60 1000 = [{ timestamp := 940, price := 5 }] := by
  constructor
  · simp [calculateTWAP, getPricePoints, cacheC8, List.find?, List.filter]
  · simp [specWindowPoints, cacheC8, List.find?, List.filter]

/-- C8, amended.  The TWAP query considers exactly the cached points of
the pair with timestamp strictly greater than `now − window`; over those
points it errors (`none`, consumed as 0 by the engine) when there are
none, returns the single point's price when there is one, and otherwise
returns `Σ(p_i.price · w_i) / Σ(w_i)` with `w_0 = 1` and `w_i` the
seconds between consecutive points (at the library division precision),
erroring again when the total weight is zero. -/
theorem calculateTWAP_window_semantics :
    (∀ (cache : PriceCache) (pair : String) (w now : ℤ)
        (entry : String × List PricePoint),
        cache.find? (fun e => e.1 = pair) = some entry →
        ∀ p, (p ∈ getPricePoints cache pair w now ↔
          p ∈ entry.2 ∧ now - w < p.timestamp)) ∧
    (∀ (cache : PriceCache) (pair : String) (wm : ℕ) (now : ℤ),
        getPricePoints cache pair ((wm : ℤ) * 60) now = [] →
        calculateTWAP cache pair wm now = none ∧ twapOrZero cache pair wm now = 0) ∧
    (∀ (cache : PriceCache) (pair : String) (wm : ℕ) (now : ℤ) (p : PricePoint),
        getPricePoints cache pair ((wm : ℤ) * 60) now = [p] →
        calculateTWAP cache pair wm now = some p.price) ∧
    (∀ (cache : PriceCache) (pair : String) (wm : ℕ) (now : ℤ),
        2 ≤ (getPricePoints cache pair ((wm : ℤ) * 60) now).length →
        calculateTWAP cache pair wm now =
          (if specTotalWeight (getPricePoints cache pair ((wm : ℤ) * 60) now) = 0 then none
           else some (decDiv (specTotalValue (getPricePoints cache pair ((wm : ℤ) * 60) now))
             (specTotalWeight (getPricePoints cache pair ((wm : ℤ) * 60) now))))) := by
  refine ⟨?_, ?_, ?_, ?_⟩
  · intro cache pair w now entry hfind p
    unfold getPricePoints
    rw [hfind]
    simp [List.mem_filter]
  · intro cache pair wm now hempty
    have hnone : calculateTWAP cache pair wm now = none := by
      unfold calculateTWAP
      rw [hempty]
    exact ⟨hnone, by simp [twapOrZero, hnone]⟩
  · intro cache pair wm now p hone
    unfold calculateTWAP
    rw [hone]
  · intro cache pair wm now hlen
    rcases hform : getPricePoints cache pair ((wm : ℤ) * 60) now with _ | ⟨a, _ | ⟨b, rest⟩⟩
    · rw [hform] at hlen; simp at hlen
    · rw [hform] at hlen; simp at hlen
    · have hmem : ∀ p ∈ a :: b :: rest, ¬ p.timestamp < now - (wm : ℤ) * 60 := by
        intro p hp
        have := getPricePoints_timestamp cache pair ((wm : ℤ) * 60) now p (hform ▸ hp)
        linarith
      unfold calculateTWAP
      rw [hform]
      simp only [twapLoop_eq_spec (now - (wm : ℤ) * 60) (a :: b :: rest) none hmem]
      simp [specTotalValue, specTotalWeight, hform]

/-- Witness for `calculateTWAP_window_semantics`: the single-point case on
`cacheC1` and the two-point weighted case on `cacheC8b`. -/
theorem calculateTWAP_window_semantics_witness :
    calculateTWAP cacheC1 "ETH_USDC" 1 50 = some 2000 ∧
    calculateTWAP cacheC8b "P2" 2 1000 =
      (if specTotalWeight (getPricePoints cacheC8b "P2" (((2 : ℕ) : ℤ) * 60) 1000) = 0
       then none
       else some (decDiv
         (specTotalValue (getPricePoints cacheC8b "P2" (((2 : ℕ) : ℤ) * 60) 1000))
         (specTotalWeight (getPricePoints cacheC8b "P2" (((2 : ℕ) : ℤ) * 60) 1000)))) :=
  ⟨calculateTWAP_window_semantics.2.2.1 cacheC1 "ETH_USDC" 1 50
     { timestamp := 49, price := 2000 }
     (by simp [getPricePoints, cacheC1, List.find?, List.filter]),
   calculateTWAP_window_semantics.2.2.2 cacheC8b "P2" 2 1000
     (by simp [getPricePoints, cacheC8b, List.find?, List.filter])⟩

/-- C9.  Event handling is not idempotent: `handleHTLCClaimed` increments
the successful-swaps counter on every delivery and `handleOrderCreated`
increments the total and active order counters on every delivery, so a
replayed event mutates the statistics again instead of being a no-op. -/
theorem event_handlers_not_idempotent (s : Statistics) :
    (handleHTLCClaimed (handleHTLCClaimed s)).successfulSwaps =
      s.successfulSwaps + 2 ∧
    handleHTLCClaimed (handleHTLCClaimed s) ≠ handleHTLCClaimed s ∧
    (handleOrderCreated (handleOrderCreated s)).totalOrders = s.totalOrders + 2 ∧
    handleOrderCreated (handleOrderCreated s) ≠ handleOrderCreated s := by
  refine ⟨by simp [handleHTLCClaimed]; ring, ?_,
          by simp [handleOrderCreated]; ring, ?_⟩
  · intro h
    have hc := congrArg Statistics.successfulSwaps h
    simp [handleHTLCClaimed] at hc
  · intro h
    have hc := congrArg Statistics.totalOrders h
    simp [handleOrderCreated] at hc

/-- C10 counterexample.  The reference contract hashes the claim secret
with a single `keccak256(abi.encodePacked(secret))` (part_000 line 399),
not with the SHA-256 double hash the claim names. -/
theorem claim_hash_scheme_not_sha256_double :
    claimHashScheme ≠ specClaimHashScheme ∧
    claimHashScheme = HashScheme.keccak256Packed := by
  exact ⟨by decide, rfl⟩

/-- C10, amended.  A claim on a completed order carrying secret s moves
the order to claimed iff `keccak256(abi.encodePacked(s))` — a single
keccak256 over the packed secret, not a double SHA-256 — equals the
order's hashed secret; a claim on a non-completed order or with a
non-matching secret reverts, changing nothing. -/
theorem claimHTLC_characterization (keccak : ℕ → ℕ) (ord : ContractOrder)
    (cnt : ℕ) (s : ℕ) :
    (ord.user ≠ 0 → ord.status = OStatus.completed → keccak s = ord.htlcHash →
      claimHTLC keccak ord cnt s =
        Except.ok ({ ord with status := OStatus.claimed }, cnt - 1)) ∧
    (ord.status ≠ OStatus.completed →
      ∃ msg, claimHTLC keccak ord cnt s = Except.error msg) ∧
    (keccak s ≠ ord.htlcHash →
      ∃ msg, claimHTLC keccak ord cnt s = Except.error msg) ∧
    claimHashScheme = HashScheme.keccak256Packed := by
  refine ⟨?_, ?_, ?_, rfl⟩
  · intro hu hs hk
    simp [claimHTLC, hu, hs, hk]
  · intro hs
    unfold claimHTLC
    split_ifs <;> simp_all
  · intro hk
    unfold claimHTLC
    split_ifs <;> simp_all

/-- Witness for `claimHTLC_characterization`: a completed order with
commitment 8 under the hash n ↦ n + 1 is claimed with secret 7. -/
theorem claimHTLC_characterization_witness :
    claimHTLC (fun n => n + 1) ⟨1, 8, OStatus.completed⟩ 3 7 =
      Except.ok (⟨1, 8, OStatus.claimed⟩, 2) :=
  (claimHTLC_characterization (fun n => n + 1) ⟨1, 8, OStatus.completed⟩ 3 7).1
    (by norm_num) rfl rfl

end FlowFusion
